import Mathlib

/-!
Verification development for the s2a4c correlation router
(src/src/endpoint.rs, src/src/router.rs, src/src/lib.rs).

The development is a shallow embedding of the Rust sources:

- `EndpointError`, `handle_request` embed `src/src/endpoint.rs`; the
  asynchronous environment is given to `handle_request` as explicit data
  (whether the registration send succeeded, and what the reply-channel
  receive eventually does, time-stamped with an abstract clock).
- `mintUuid`, `applyResponse`, `responseLoop` embed the bodies of
  `registration_loop` and `response_loop` from `src/src/router.rs`.
- `Sys`/`Step`/`Reachable` are a small-step semantics of the whole pipeline
  (endpoints, registration loop, detached dispatch tasks, a worker pool that
  computes a fixed function `f`, and the response loop), with machine-level
  nondeterminism expressed as nondeterministic interleaving of steps.
- `Own` together with `regSenders`/`respSenders`/`reqSenders` embeds the
  ownership structure of the channel ends held by `Router` clones,
  `Endpoint`s and workers (src/src/router.rs lines 34-53).
-/

namespace S2A4C

/-- Call identifiers: `uuid::Uuid` values, abstracted to naturals. -/
abbrev Uuid := Nat

/-- Identity of one per-call reply channel (endpoint.rs line 114 creates a
fresh one per `handle_request` call). -/
abbrev ChanId := Nat

/-! ## Endpoint (src/src/endpoint.rs) -/

/-- `EndpointError` (endpoint.rs lines 78-86). The payloads of
`ResponseReceiveError` (`RecvError`) and `TimeoutError` (`Elapsed`) carry no
information relevant to control flow and are dropped in the embedded model. -/
inductive EndpointError where
  | RequestSendError
  | ResponseReceiveError
  | TimeoutError
deriving DecidableEq, Repr

/-- What the receive half of the per-call reply channel eventually does, as
observed by the caller: a value arrives at abstract time `t`, the channel is
closed (all senders dropped, no value) at abstract time `t`, or nothing ever
happens. This is the oracle consumed by the embedded `handle_request`. -/
inductive RecvOutcome (Response : Type) where
  | value (t : Nat) (r : Response)
  | closed (t : Nat)
  | never
deriving DecidableEq

/-- Capacity of the per-call reply channel: `bounded(100)` at
endpoint.rs line 114. -/
def replyChannelCapacity : Nat := 100

/-- `async_channel` bounded send, as a pure transition on the channel buffer:
the send completes immediately when the buffer is below capacity and would
block (`none`) otherwise. -/
def chanSend {α : Type} (cap : Nat) (buf : List α) (v : α) : Option (List α) :=
  if buf.length < cap then some (buf ++ [v]) else none

/-- `Endpoint::handle_request` (endpoint.rs lines 113-122).

- `sendOk` is whether `registration_sender.send((request, response_sender))`
  succeeds; on failure the `?` operator returns
  `Err(EndpointError::RequestSendError)` at once (via the `From<SendError>`
  impl at endpoint.rs lines 88-92).
- With `timeout_interval = some interval` the receive is raced against a
  timer (`timeout(interval, response_receiver.recv())`): the receive wins
  exactly when it resolves strictly before the timer; an expired timer gives
  `TimeoutError` through the second `?`.
- With no timeout the receive is awaited unconditionally; a closed channel
  maps to `ResponseReceiveError` via `map_err`, and if the channel never
  resolves the call never returns (`none`). -/
def handle_request {Response : Type} (sendOk : Bool) (timeout_interval : Option Nat)
    (recv : RecvOutcome Response) : Option (Except EndpointError Response) :=
  if sendOk = false then some (Except.error EndpointError.RequestSendError)
  else
    match timeout_interval with
    | some interval =>
      match recv with
      | RecvOutcome.value t r =>
          if t < interval then some (Except.ok r)
          else some (Except.error EndpointError.TimeoutError)
      | RecvOutcome.closed t =>
          if t < interval then some (Except.error EndpointError.ResponseReceiveError)
          else some (Except.error EndpointError.TimeoutError)
      | RecvOutcome.never => some (Except.error EndpointError.TimeoutError)
    | none =>
      match recv with
      | RecvOutcome.value _ r => some (Except.ok r)
      | RecvOutcome.closed _ => some (Except.error EndpointError.ResponseReceiveError)
      | RecvOutcome.never => none

/-- The reply-channel receive resolves in no way (neither a value nor closure)
strictly before time `T`. -/
def noResolveWithin {Response : Type} (T : Nat) (recv : RecvOutcome Response) : Prop :=
  match recv with
  | RecvOutcome.value t _ => T ≤ t
  | RecvOutcome.closed t => T ≤ t
  | RecvOutcome.never => True

/-! ## Registration loop identifier minting (src/src/router.rs lines 141-149) -/

/-- The uuid-minting retry loop of `registration_loop`:
`let mut uuid = Uuid::new_v4(); while response_map.insert_async(uuid, ...).is_err() { uuid = Uuid::new_v4(); }`.
`gen` is the stream of values produced by successive `Uuid::new_v4()` calls,
`start` the index of the next draw, `keys` the current keys of the
correlation map (an `scc::HashMap` insert fails exactly when the key is
already present). The `fuel` bound models identifier-space exhaustion, the
only bound on the retry. -/
def mintUuid (gen : Nat → Uuid) (keys : List Uuid) : Nat → Nat → Option Uuid
  | _, 0 => none
  | start, fuel + 1 =>
      if gen start ∈ keys then mintUuid gen keys (start + 1) fuel
      else some (gen start)

/-! ## System state and step semantics (src/src/router.rs together with
src/src/endpoint.rs) -/

/-- Pointwise update of a function on channel identifiers or uuids. -/
def updFn {β : Type} (g : Nat → β) (k : Nat) (v : β) : Nat → β :=
  fun j => if j = k then v else g j

/-- Removal of the entry keyed `u` from the correlation map
(`response_map.remove_async(&uuid)`, router.rs line 84), on the
association-list model of the `scc::HashMap`. Since map keys are kept
nodup, filtering all `u`-keyed entries removes exactly the one entry. -/
def eraseKey {β : Type} (u : Uuid) (m : List (Uuid × β)) : List (Uuid × β) :=
  m.filter (fun p => p.1 != u)

/-- Global state of the router pipeline.

- `regQueue`: the Registration Queue, carrying `(request, reply sender)`
  pairs (router.rs lines 36-39).
- `pending`: dispatch tasks spawned by `registration_loop`
  (`tokio::spawn` at router.rs line 151) whose `request_sender.send` has not
  completed yet.
- `reqQueue`: the Request Queue of `(uuid, request)` envelopes.
- `inflight`: envelopes a worker has received but not yet answered.
- `resQueue`: the Response Queue of `(uuid, response)` envelopes.
- `rmap`: the correlation map `response_map` (router.rs line 52), with the
  reply channel represented by its identity.
- `chans`: per-call reply channel buffers; `none` is a channel whose
  receiver is gone (caller dropped it), `some buf` an open channel holding
  `buf`.
- `callReq`: ghost map recording, for each reply channel, the request the
  caller submitted with it.
- `usedChans`: ghost list of every reply channel ever created.
- `delivCount`: ghost count of responses successfully delivered into each
  reply channel. -/
structure Sys (Req Res : Type) where
  regQueue : List (Req × ChanId)
  pending : List (Uuid × Req)
  reqQueue : List (Uuid × Req)
  inflight : List (Uuid × Req)
  resQueue : List (Uuid × Res)
  rmap : List (Uuid × ChanId)
  chans : ChanId → Option (List Res)
  callReq : ChanId → Req
  usedChans : List ChanId
  delivCount : ChanId → Nat

/-- One pass of the `response_loop` body (router.rs lines 83-101) applied to
a received `(uuid, response)` envelope: atomically remove the map entry for
the uuid; if an entry is found, send the response into its reply channel,
swallowing the send error when the receiver is gone; if no entry is found,
ignore the event. Every branch returns a state: no branch panics or aborts. -/
def applyResponse {Req Res : Type} (u : Uuid) (r : Res) (s : Sys Req Res) : Sys Req Res :=
  match List.lookup u s.rmap with
  | some k =>
    match s.chans k with
    | some buf =>
      { s with rmap := eraseKey u s.rmap
               chans := updFn s.chans k (some (buf ++ [r]))
               delivCount := updFn s.delivCount k (s.delivCount k + 1) }
    | none => { s with rmap := eraseKey u s.rmap }
  | none => s

/-- The `response_loop` (router.rs lines 77-102) run over the list of
envelopes its `while let Ok(...) = response_receiver.recv().await` yields
before the Response Queue closes: it applies `applyResponse` to each event
in order and ends exactly when the list is exhausted. -/
def responseLoop {Req Res : Type} (events : List (Uuid × Res)) (s : Sys Req Res) : Sys Req Res :=
  match events with
  | [] => s
  | e :: es => responseLoop es (applyResponse e.1 e.2 s)

/-- Whether an `async_channel` with capacity `cap` (`none` = unbounded)
currently accepts a send without blocking. -/
def hasRoom {α : Type} (cap : Option Nat) (q : List α) : Prop :=
  match cap with
  | none => True
  | some n => q.length < n

/-- Small-step semantics of the pipeline. `f` is the function every worker
computes (`response = f(request)`), `cap` the Request Queue capacity.

- `submit`: one `Endpoint::handle_request` call creates a fresh private
  reply channel (endpoint.rs line 114) and its registration send completes
  (endpoint.rs line 116).
- `register`: one `registration_loop` pass (router.rs lines 139-149): take
  the head registration, insert a uuid that is not a current map key (the
  retry loop `mintUuid` discards colliding candidates) and spawn the
  dispatch task.
- `dispatch`: a spawned dispatch task completes its
  `request_sender.send((uuid, request))` (router.rs line 153); tasks
  complete in any order, and only when the Request Queue has room.
- `workTake` / `workDone`: a worker receives an envelope from the shared
  Request Queue, and later answers it with `f` applied to the request on
  the Response Queue; workers finish in any order.
- `deliver`: one `response_loop` pass on the head of the Response Queue.
- `closeChan`: a caller abandons its reply channel (timeout expiry drops
  `response_receiver`, endpoint.rs line 118); nothing is sent upstream. -/
inductive Step {Req Res : Type} (f : Req → Res) (cap : Option Nat) :
    Sys Req Res → Sys Req Res → Prop where
  | submit (s : Sys Req Res) (x : Req) (k : ChanId) (hk : k ∉ s.usedChans) :
      Step f cap s
        { s with regQueue := s.regQueue ++ [(x, k)]
                 chans := updFn s.chans k (some [])
                 callReq := updFn s.callReq k x
                 usedChans := k :: s.usedChans }
  | register (s : Sys Req Res) (x : Req) (k : ChanId) (rest : List (Req × ChanId))
      (u : Uuid) (hq : s.regQueue = (x, k) :: rest)
      (hu : List.lookup u s.rmap = none) :
      Step f cap s
        { s with regQueue := rest
                 rmap := (u, k) :: s.rmap
                 pending := s.pending ++ [(u, x)] }
  | dispatch (s : Sys Req Res) (p1 p2 : List (Uuid × Req)) (u : Uuid) (x : Req)
      (hp : s.pending = p1 ++ (u, x) :: p2) (hroom : hasRoom cap s.reqQueue) :
      Step f cap s
        { s with pending := p1 ++ p2
                 reqQueue := s.reqQueue ++ [(u, x)] }
  | workTake (s : Sys Req Res) (u : Uuid) (x : Req) (rest : List (Uuid × Req))
      (hq : s.reqQueue = (u, x) :: rest) :
      Step f cap s
        { s with reqQueue := rest
                 inflight := s.inflight ++ [(u, x)] }
  | workDone (s : Sys Req Res) (w1 w2 : List (Uuid × Req)) (u : Uuid) (x : Req)
      (hw : s.inflight = w1 ++ (u, x) :: w2) :
      Step f cap s
        { s with inflight := w1 ++ w2
                 resQueue := s.resQueue ++ [(u, f x)] }
  | deliver (s : Sys Req Res) (u : Uuid) (r : Res) (rest : List (Uuid × Res))
      (hq : s.resQueue = (u, r) :: rest) :
      Step f cap s (applyResponse u r { s with resQueue := rest })
  | closeChan (s : Sys Req Res) (k : ChanId) :
      Step f cap s { s with chans := updFn s.chans k none }

/-- The initial state: a freshly constructed `Router` (router.rs
lines 196-223) with empty queues and an empty correlation map. -/
def initSys (Req Res : Type) [Inhabited Req] : Sys Req Res :=
  { regQueue := []
    pending := []
    reqQueue := []
    inflight := []
    resQueue := []
    rmap := []
    chans := fun _ => none
    callReq := fun _ => default
    usedChans := []
    delivCount := fun _ => 0 }

/-- States the pipeline can reach from a fresh router by any interleaving of
endpoint calls, loop passes, dispatch tasks, workers and caller timeouts. -/
def Reachable {Req Res : Type} [Inhabited Req] (f : Req → Res) (cap : Option Nat)
    (s : Sys Req Res) : Prop :=
  Relation.ReflTransGen (Step f cap) (initSys Req Res) s

/-- Number of entries of an association list whose key is `u`. -/
def countKeys {α : Type} (u : Uuid) (l : List (Uuid × α)) : Nat :=
  (l.map Prod.fst).count u

/-- Number of entries of an association list whose value is the channel `k`. -/
def countVals {α : Type} (k : ChanId) (l : List (α × ChanId)) : Nat :=
  (l.map Prod.snd).count k

/-- How many places currently hold the sending half of reply channel `k`:
as an entry of the Registration Queue or of the correlation map. -/
def occ {Req Res : Type} (k : ChanId) (s : Sys Req Res) : Nat :=
  countVals k s.regQueue + countVals k s.rmap

/-- How many envelopes tagged with uuid `u` are anywhere in the pipeline:
pending dispatch tasks, the Request Queue, workers, or the Response Queue. -/
def uuidCount {Req Res : Type} (u : Uuid) (s : Sys Req Res) : Nat :=
  countKeys u s.pending + countKeys u s.reqQueue + countKeys u s.inflight +
    countKeys u s.resQueue

/-- The inductive invariant of the pipeline. -/
structure Inv {Req Res : Type} (f : Req → Res) (s : Sys Req Res) : Prop where
  rmapNodup : (s.rmap.map Prod.fst).Nodup
  regUsed : ∀ p ∈ s.regQueue, p.2 ∈ s.usedChans
  rmapUsed : ∀ p ∈ s.rmap, p.2 ∈ s.usedChans
  unusedNone : ∀ k, k ∉ s.usedChans → s.chans k = none
  unusedDeliv : ∀ k, k ∉ s.usedChans → s.delivCount k = 0
  regReq : ∀ p ∈ s.regQueue, p.1 = s.callReq p.2
  occDeliv : ∀ k, occ k s + s.delivCount k ≤ 1
  pipeMapped : ∀ p ∈ s.pending ++ s.reqQueue ++ s.inflight,
      ∃ k, List.lookup p.1 s.rmap = some k ∧ p.2 = s.callReq k
  resMapped : ∀ p ∈ s.resQueue,
      ∃ k, List.lookup p.1 s.rmap = some k ∧ p.2 = f (s.callReq k)
  pipeOnce : ∀ u, uuidCount u s ≤ 1
  chanVals : ∀ k buf, s.chans k = some buf → ∀ r ∈ buf, r = f (s.callReq k)

/-! ## Ownership of channel ends (src/src/router.rs lines 34-53,
src/src/endpoint.rs lines 94-97) -/

/-- Counts of the live holders of channel ends. Every `Router` clone holds,
as struct fields, a sender and a receiver of all three queues
(`registration_sender`/`registration_receiver`,
`request_sender`/`request_receiver`, `response_sender`/`response_receiver`,
router.rs lines 34-53). Every `Endpoint` holds a clone of
`registration_sender` (endpoint.rs line 95, created at router.rs line 237).
Every worker holds clones of `request_receiver` and `response_sender`
(router.rs lines 254-257). -/
structure Own where
  clones : Nat
  endpoints : Nat
  workers : Nat

/-- Live senders of the Registration Queue: one per `Router` clone plus one
per `Endpoint`. -/
def regSenders (o : Own) : Nat := o.clones + o.endpoints

/-- Live senders of the Response Queue: one per `Router` clone plus one per
worker. -/
def respSenders (o : Own) : Nat := o.clones + o.workers

/-- Live senders of the Request Queue: at least one per `Router` clone
(dispatch tasks hold transient extra clones, router.rs line 150). -/
def reqSenders (o : Own) : Nat := o.clones

/-- An `async_channel` receiver observes closure (its `recv` returns `Err`)
only once every sender is dropped. -/
def senderClosed (senders : Nat) : Prop := senders = 0

/-- The `while let Ok(...) = registration_receiver.recv().await` loop of
`registration_loop` (router.rs line 139) exits exactly when the
Registration Queue is closed and drained. -/
def regLoopTerminated (o : Own) : Prop := senderClosed (regSenders o)

/-- The `while let Ok(...) = response_receiver.recv().await` loop of
`response_loop` (router.rs line 83) exits exactly when the Response Queue is
closed and drained. -/
def respLoopTerminated (o : Own) : Prop := senderClosed (respSenders o)

/-- `Router::run` (router.rs lines 261-272) joins both loops and returns
only when both have terminated. -/
def runReturned (o : Own) : Prop := regLoopTerminated o ∧ respLoopTerminated o

/-! ## Concrete pipeline runs

One full run of the pipeline with worker function `Nat.succ` and Request
Queue capacity 1: request 7 is submitted on reply channel 0, registered
under identifier 3, dispatched, answered by a worker, and delivered. -/

def w0 : Sys Nat Nat := initSys Nat Nat

def w1 : Sys Nat Nat :=
  { w0 with regQueue := w0.regQueue ++ [(7, 0)]
            chans := updFn w0.chans 0 (some [])
            callReq := updFn w0.callReq 0 7
            usedChans := 0 :: w0.usedChans }

def w2 : Sys Nat Nat :=
  { w1 with regQueue := []
            rmap := (3, 0) :: w1.rmap
            pending := w1.pending ++ [(3, 7)] }

def w3 : Sys Nat Nat :=
  { w2 with pending := [] ++ []
            reqQueue := w2.reqQueue ++ [(3, 7)] }

def w4 : Sys Nat Nat :=
  { w3 with reqQueue := []
            inflight := w3.inflight ++ [(3, 7)] }

def w5 : Sys Nat Nat :=
  { w4 with inflight := [] ++ []
            resQueue := w4.resQueue ++ [(3, Nat.succ 7)] }

def w6 : Sys Nat Nat := applyResponse 3 (Nat.succ 7) { w5 with resQueue := [] }

/-- `w6` with a stray correlation-map entry whose reply channel was never
opened (`w6.chans 5 = none`): exercises the swallowed send-failure path of
the response loop. -/
def w7 : Sys Nat Nat := { w6 with rmap := [(4, 5)] }

/-- A state whose Request Queue is full at capacity 1 while a registration
and an earlier dispatch task are still outstanding. -/
def wC9 : Sys Nat Nat :=
  { regQueue := [(7, 0)]
    pending := [(9, 9)]
    reqQueue := [(5, 5)]
    inflight := []
    resQueue := []
    rmap := []
    chans := fun _ => none
    callReq := fun _ => 0
    usedChans := [0]
    delivCount := fun _ => 0 }

/-! ## Association-list lemmas -/

theorem lookup_eq_none_iff {β : Type} {u : Uuid} {m : List (Uuid × β)} :
    List.lookup u m = none ↔ u ∉ m.map Prod.fst := by
  induction m with
  | nil => simp
  | cons a tl ih =>
      obtain ⟨a1, a2⟩ := a
      by_cases h : u = a1
      · subst h
        simp [List.lookup]
      · simp [List.lookup, h, Ne.symm h, ih, beq_false_of_ne h]

theorem lookup_some_mem {β : Type} {u : Uuid} {v : β} {m : List (Uuid × β)}
    (h : List.lookup u m = some v) : (u, v) ∈ m := by
  induction m with
  | nil => simp at h
  | cons a tl ih =>
      obtain ⟨a1, a2⟩ := a
      by_cases hu : u = a1
      · subst hu
        simp [List.lookup] at h
        subst h
        exact List.mem_cons_self _ _
      · simp [List.lookup, beq_false_of_ne hu] at h
        exact List.mem_cons_of_mem _ (ih h)

theorem lookup_cons_ne {β : Type} {u a1 : Uuid} {a2 : β} {tl : List (Uuid × β)}
    (h : u ≠ a1) : List.lookup u ((a1, a2) :: tl) = List.lookup u tl := by
  simp [List.lookup, beq_false_of_ne h]

theorem eraseKey_of_not_mem {β : Type} {u : Uuid} {m : List (Uuid × β)}
    (h : u ∉ m.map Prod.fst) : eraseKey u m = m := by
  induction m with
  | nil => rfl
  | cons a tl ih =>
      simp only [List.map_cons, List.mem_cons, not_or] at h
      have h1 : (a.1 != u) = true := bne_iff_ne.2 (Ne.symm h.1)
      have h2 : eraseKey u tl = tl := ih h.2
      rw [eraseKey, List.filter_cons, if_pos h1]
      rw [eraseKey] at h2
      rw [h2]

theorem lookup_eraseKey_ne {β : Type} {u w : Uuid} {m : List (Uuid × β)}
    (h : w ≠ u) : List.lookup w (eraseKey u m) = List.lookup w m := by
  induction m with
  | nil => rfl
  | cons a tl ih =>
      obtain ⟨a1, a2⟩ := a
      by_cases ha : a1 = u
      · subst ha
        simp [eraseKey, List.filter_cons, lookup_cons_ne h] at ih ⊢
        exact ih
      · by_cases hw : w = a1
        · subst hw
          simp [eraseKey, List.filter_cons, bne_iff_ne, ha, List.lookup]
        · simp [eraseKey, List.filter_cons, bne_iff_ne, ha,
            lookup_cons_ne hw] at ih ⊢
          exact ih

theorem eraseKey_map_fst_sublist {β : Type} (u : Uuid) (m : List (Uuid × β)) :
    List.Sublist ((eraseKey u m).map Prod.fst) (m.map Prod.fst) :=
  List.Sublist.map Prod.fst (List.filter_sublist m)

theorem mem_eraseKey {β : Type} {u : Uuid} {p : Uuid × β} {m : List (Uuid × β)}
    (h : p ∈ eraseKey u m) : p ∈ m :=
  List.mem_of_mem_filter h

theorem lookup_some_split {β : Type} {u : Uuid} {k : β} {m : List (Uuid × β)}
    (hnd : (m.map Prod.fst).Nodup) (hlk : List.lookup u m = some k) :
    ∃ l1 l2, m = l1 ++ (u, k) :: l2 ∧ eraseKey u m = l1 ++ l2 := by
  induction m with
  | nil => simp at hlk
  | cons a tl ih =>
      obtain ⟨a1, a2⟩ := a
      simp only [List.map_cons, List.nodup_cons] at hnd
      by_cases hu : u = a1
      · subst hu
        simp [List.lookup] at hlk
        subst hlk
        refine ⟨[], tl, rfl, ?_⟩
        have htl : eraseKey u tl = tl := by
          apply eraseKey_of_not_mem
          exact hnd.1
        simp [eraseKey, List.filter_cons] at htl ⊢
        exact htl
      · rw [lookup_cons_ne hu] at hlk
        obtain ⟨l1, l2, heq, herase⟩ := ih hnd.2 hlk
        refine ⟨(a1, a2) :: l1, l2, by rw [heq]; rfl, ?_⟩
        have h1 : (a1 != u) = true := bne_iff_ne.2 (fun h => hu (Eq.symm h))
        rw [eraseKey, List.filter_cons, if_pos h1]
        rw [eraseKey] at herase
        rw [herase]
        rfl

theorem countVals_append {α : Type} (k : ChanId) (l1 l2 : List (α × ChanId)) :
    countVals k (l1 ++ l2) = countVals k l1 + countVals k l2 := by
  simp [countVals, List.count_append]

theorem countKeys_append {α : Type} (u : Uuid) (l1 l2 : List (Uuid × α)) :
    countKeys u (l1 ++ l2) = countKeys u l1 + countKeys u l2 := by
  simp [countKeys, List.count_append]

theorem countVals_cons {α : Type} (k : ChanId) (a : α × ChanId) (l : List (α × ChanId)) :
    countVals k (a :: l) = countVals k l + if a.2 = k then 1 else 0 := by
  simp [countVals, List.count_cons]

theorem countKeys_cons {α : Type} (u : Uuid) (a : Uuid × α) (l : List (Uuid × α)) :
    countKeys u (a :: l) = countKeys u l + if a.1 = u then 1 else 0 := by
  simp [countKeys, List.count_cons]

theorem countVals_eq_zero {α : Type} {k : ChanId} {l : List (α × ChanId)}
    (h : ∀ p ∈ l, p.2 ≠ k) : countVals k l = 0 := by
  rw [countVals, List.count_eq_zero]
  intro hmem
  obtain ⟨p, hp, hpk⟩ := List.mem_map.1 hmem
  exact h p hp hpk

theorem countKeys_pos {α : Type} {u : Uuid} {l : List (Uuid × α)}
    (h : 0 < countKeys u l) : ∃ p ∈ l, p.1 = u := by
  rw [countKeys, List.count_pos_iff] at h
  obtain ⟨p, hp, hpk⟩ := List.mem_map.1 h
  exact ⟨p, hp, hpk⟩

theorem countKeys_pos_of_mem {α : Type} {u : Uuid} {p : Uuid × α} {l : List (Uuid × α)}
    (hp : p ∈ l) (hu : p.1 = u) : 0 < countKeys u l := by
  rw [countKeys, List.count_pos_iff]
  exact List.mem_map.2 ⟨p, hp, hu⟩

theorem countVals_eraseKey_self {m : List (Uuid × ChanId)} {u : Uuid} {k : ChanId}
    (hnd : (m.map Prod.fst).Nodup) (hlk : List.lookup u m = some k) :
    countVals k (eraseKey u m) + 1 = countVals k m := by
  obtain ⟨l1, l2, heq, herase⟩ := lookup_some_split hnd hlk
  subst heq
  rw [herase, countVals_append, countVals_append, countVals_cons]
  simp
  omega

theorem countVals_eraseKey_ne {m : List (Uuid × ChanId)} {u : Uuid} {k j : ChanId}
    (hnd : (m.map Prod.fst).Nodup) (hlk : List.lookup u m = some k) (hne : j ≠ k) :
    countVals j (eraseKey u m) = countVals j m := by
  obtain ⟨l1, l2, heq, herase⟩ := lookup_some_split hnd hlk
  subst heq
  rw [herase, countVals_append, countVals_append, countVals_cons]
  simp
  exact fun h => hne (Eq.symm h)

theorem countKeys_nil {α : Type} (u : Uuid) : countKeys u ([] : List (Uuid × α)) = 0 := rfl

theorem countKeys_cons_pair {α : Type} (v a : Uuid) (b : α) (l : List (Uuid × α)) :
    countKeys v ((a, b) :: l) = countKeys v l + if a = v then 1 else 0 := by
  simp [countKeys, List.count_cons]

theorem countKeys_singleton_pair {α : Type} (v a : Uuid) (b : α) :
    countKeys v [(a, b)] = if a = v then 1 else 0 := by
  simp [countKeys, List.count_singleton]

theorem countVals_cons_pair {α : Type} (j : ChanId) (a : α) (b : ChanId)
    (l : List (α × ChanId)) :
    countVals j ((a, b) :: l) = countVals j l + if b = j then 1 else 0 := by
  simp [countVals, List.count_cons]

/-! ## Invariant preservation -/

theorem inv_submit {Req Res : Type} {f : Req → Res} {s : Sys Req Res} {x : Req} {k : ChanId}
    (hs : Inv f s) (hk : k ∉ s.usedChans) :
    Inv f { s with regQueue := s.regQueue ++ [(x, k)]
                   chans := updFn s.chans k (some [])
                   callReq := updFn s.callReq k x
                   usedChans := k :: s.usedChans } := by
  refine { rmapNodup := hs.rmapNodup, pipeOnce := hs.pipeOnce,
           regUsed := ?_, rmapUsed := ?_, unusedNone := ?_, unusedDeliv := ?_,
           regReq := ?_, occDeliv := ?_, pipeMapped := ?_, resMapped := ?_,
           chanVals := ?_ }
  · intro p hp
    rcases List.mem_append.1 hp with h | h
    · exact List.mem_cons_of_mem _ (hs.regUsed p h)
    · simp only [List.mem_singleton] at h
      subst h
      exact List.mem_cons_self _ _
  · intro p hp
    exact List.mem_cons_of_mem _ (hs.rmapUsed p hp)
  · intro j hj
    simp only [List.mem_cons, not_or] at hj
    simp only [updFn, if_neg hj.1]
    exact hs.unusedNone j hj.2
  · intro j hj
    simp only [List.mem_cons, not_or] at hj
    exact hs.unusedDeliv j hj.2
  · intro p hp
    rcases List.mem_append.1 hp with h | h
    · have h2 := hs.regUsed p h
      have hne : p.2 ≠ k := fun he => hk (he ▸ h2)
      simp only [updFn, if_neg hne]
      exact hs.regReq p h
    · simp only [List.mem_singleton] at h
      subst h
      simp [updFn]
  · intro j
    show countVals j (s.regQueue ++ [(x, k)]) + countVals j s.rmap + s.delivCount j ≤ 1
    by_cases hj : j = k
    · subst hj
      have e1 : countVals j s.regQueue = 0 :=
        countVals_eq_zero (fun p hp he => hk (he ▸ hs.regUsed p hp))
      have e2 : countVals j s.rmap = 0 :=
        countVals_eq_zero (fun p hp he => hk (he ▸ hs.rmapUsed p hp))
      have e3 : s.delivCount j = 0 := hs.unusedDeliv j hk
      have e4 : countVals j [(x, j)] = 1 := by simp [countVals]
      rw [countVals_append, e1, e2, e3, e4]
    · have e0 : countVals j [(x, k)] = 0 := by
        simp [countVals, List.count_singleton, hj]
      have h1 := hs.occDeliv j
      simp only [occ] at h1
      rw [countVals_append, e0]
      omega
  · intro p hp
    obtain ⟨kp, hlk, hpc⟩ := hs.pipeMapped p hp
    have hkp : kp ∈ s.usedChans := hs.rmapUsed _ (lookup_some_mem hlk)
    have hne : kp ≠ k := fun he => hk (he ▸ hkp)
    refine ⟨kp, hlk, ?_⟩
    simp only [updFn, if_neg hne]
    exact hpc
  · intro p hp
    obtain ⟨kp, hlk, hpc⟩ := hs.resMapped p hp
    have hkp : kp ∈ s.usedChans := hs.rmapUsed _ (lookup_some_mem hlk)
    have hne : kp ≠ k := fun he => hk (he ▸ hkp)
    refine ⟨kp, hlk, ?_⟩
    simp only [updFn, if_neg hne]
    exact hpc
  · intro j buf hbuf r hr
    by_cases hj : j = k
    · subst hj
      simp only [updFn, if_pos] at hbuf
      cases hbuf
      simp at hr
    · simp only [updFn, if_neg hj] at hbuf
      simp only [updFn, if_neg hj]
      exact hs.chanVals j buf hbuf r hr

theorem inv_register {Req Res : Type} {f : Req → Res} {s : Sys Req Res} {x : Req}
    {k : ChanId} {rest : List (Req × ChanId)} {u : Uuid}
    (hs : Inv f s) (hq : s.regQueue = (x, k) :: rest)
    (hu : List.lookup u s.rmap = none) :
    Inv f { s with regQueue := rest
                   rmap := (u, k) :: s.rmap
                   pending := s.pending ++ [(u, x)] } := by
  have hxk : (x, k) ∈ s.regQueue := by rw [hq]; exact List.mem_cons_self _ _
  refine { unusedNone := hs.unusedNone, unusedDeliv := hs.unusedDeliv,
           chanVals := hs.chanVals,
           rmapNodup := ?_, regUsed := ?_, rmapUsed := ?_, regReq := ?_,
           occDeliv := ?_, pipeMapped := ?_, resMapped := ?_, pipeOnce := ?_ }
  · simp only [List.map_cons, List.nodup_cons]
    exact ⟨lookup_eq_none_iff.1 hu, hs.rmapNodup⟩
  · intro p hp
    exact hs.regUsed p (by rw [hq]; exact List.mem_cons_of_mem _ hp)
  · intro p hp
    rcases List.mem_cons.1 hp with h | h
    · subst h
      exact hs.regUsed _ hxk
    · exact hs.rmapUsed p h
  · intro p hp
    exact hs.regReq p (by rw [hq]; exact List.mem_cons_of_mem _ hp)
  · intro j
    have h1 := hs.occDeliv j
    simp only [occ, hq] at h1
    rw [countVals_cons_pair] at h1
    show countVals j rest + countVals j ((u, k) :: s.rmap) + s.delivCount j ≤ 1
    rw [countVals_cons_pair]
    omega
  · intro p hp
    simp only [List.mem_append, List.mem_singleton] at hp
    rcases hp with (h | h) | h
    · rcases h with h | h
      · obtain ⟨kp, hlk, hpc⟩ := hs.pipeMapped p (by simp [h])
        have hpu : p.1 ≠ u := by
          intro he
          rw [he, hu] at hlk
          cases hlk
        exact ⟨kp, by rw [lookup_cons_ne hpu]; exact hlk, hpc⟩
      · subst h
        refine ⟨k, by simp [List.lookup], ?_⟩
        exact hs.regReq _ hxk
    · obtain ⟨kp, hlk, hpc⟩ := hs.pipeMapped p (by simp [h])
      have hpu : p.1 ≠ u := by
        intro he
        rw [he, hu] at hlk
        cases hlk
      exact ⟨kp, by rw [lookup_cons_ne hpu]; exact hlk, hpc⟩
    · obtain ⟨kp, hlk, hpc⟩ := hs.pipeMapped p (by simp [h])
      have hpu : p.1 ≠ u := by
        intro he
        rw [he, hu] at hlk
        cases hlk
      exact ⟨kp, by rw [lookup_cons_ne hpu]; exact hlk, hpc⟩
  · intro p hp
    obtain ⟨kp, hlk, hpc⟩ := hs.resMapped p hp
    have hpu : p.1 ≠ u := by
      intro he
      rw [he, hu] at hlk
      cases hlk
    exact ⟨kp, by rw [lookup_cons_ne hpu]; exact hlk, hpc⟩
  · intro v
    by_cases hv : v = u
    · subst hv
      have hpend : countKeys v s.pending = 0 := by
        by_contra h
        obtain ⟨p, hp, hpk⟩ := countKeys_pos (Nat.pos_of_ne_zero h)
        obtain ⟨kp, hlk, _⟩ := hs.pipeMapped p (by simp [hp])
        rw [hpk, hu] at hlk
        cases hlk
      have hreq : countKeys v s.reqQueue = 0 := by
        by_contra h
        obtain ⟨p, hp, hpk⟩ := countKeys_pos (Nat.pos_of_ne_zero h)
        obtain ⟨kp, hlk, _⟩ := hs.pipeMapped p (by simp [hp])
        rw [hpk, hu] at hlk
        cases hlk
      have hinf : countKeys v s.inflight = 0 := by
        by_contra h
        obtain ⟨p, hp, hpk⟩ := countKeys_pos (Nat.pos_of_ne_zero h)
        obtain ⟨kp, hlk, _⟩ := hs.pipeMapped p (by simp [hp])
        rw [hpk, hu] at hlk
        cases hlk
      have hres : countKeys v s.resQueue = 0 := by
        by_contra h
        obtain ⟨p, hp, hpk⟩ := countKeys_pos (Nat.pos_of_ne_zero h)
        obtain ⟨kp, hlk, _⟩ := hs.resMapped p hp
        rw [hpk, hu] at hlk
        cases hlk
      show countKeys v (s.pending ++ [(v, x)]) + countKeys v s.reqQueue +
        countKeys v s.inflight + countKeys v s.resQueue ≤ 1
      rw [countKeys_append, countKeys_singleton_pair, hpend, hreq, hinf, hres]
      simp
    · have h1 := hs.pipeOnce v
      simp only [uuidCount] at h1
      show countKeys v (s.pending ++ [(u, x)]) + countKeys v s.reqQueue +
        countKeys v s.inflight + countKeys v s.resQueue ≤ 1
      rw [countKeys_append, countKeys_singleton_pair,
        if_neg (fun h => hv (Eq.symm h))]
      omega

theorem inv_dispatch {Req Res : Type} {f : Req → Res} {s : Sys Req Res}
    {p1 p2 : List (Uuid × Req)} {u : Uuid} {x : Req}
    (hs : Inv f s) (hp : s.pending = p1 ++ (u, x) :: p2) :
    Inv f { s with pending := p1 ++ p2
                   reqQueue := s.reqQueue ++ [(u, x)] } := by
  refine { rmapNodup := hs.rmapNodup, regUsed := hs.regUsed, rmapUsed := hs.rmapUsed,
           unusedNone := hs.unusedNone, unusedDeliv := hs.unusedDeliv,
           regReq := hs.regReq, occDeliv := hs.occDeliv, resMapped := hs.resMapped,
           chanVals := hs.chanVals, pipeMapped := ?_, pipeOnce := ?_ }
  · intro p hpm
    apply hs.pipeMapped
    rw [hp]
    simp only [List.mem_append, List.mem_cons, List.mem_singleton] at hpm ⊢
    tauto
  · intro v
    have h1 := hs.pipeOnce v
    simp only [uuidCount, hp] at h1
    rw [countKeys_append, countKeys_cons_pair] at h1
    show countKeys v (p1 ++ p2) + countKeys v (s.reqQueue ++ [(u, x)]) +
      countKeys v s.inflight + countKeys v s.resQueue ≤ 1
    rw [countKeys_append, countKeys_append, countKeys_singleton_pair]
    omega

theorem inv_workTake {Req Res : Type} {f : Req → Res} {s : Sys Req Res}
    {u : Uuid} {x : Req} {rest : List (Uuid × Req)}
    (hs : Inv f s) (hq : s.reqQueue = (u, x) :: rest) :
    Inv f { s with reqQueue := rest
                   inflight := s.inflight ++ [(u, x)] } := by
  refine { rmapNodup := hs.rmapNodup, regUsed := hs.regUsed, rmapUsed := hs.rmapUsed,
           unusedNone := hs.unusedNone, unusedDeliv := hs.unusedDeliv,
           regReq := hs.regReq, occDeliv := hs.occDeliv, resMapped := hs.resMapped,
           chanVals := hs.chanVals, pipeMapped := ?_, pipeOnce := ?_ }
  · intro p hpm
    apply hs.pipeMapped
    rw [hq]
    simp only [List.mem_append, List.mem_cons, List.mem_singleton] at hpm ⊢
    tauto
  · intro v
    have h1 := hs.pipeOnce v
    simp only [uuidCount, hq] at h1
    rw [countKeys_cons_pair] at h1
    show countKeys v s.pending + countKeys v rest +
      countKeys v (s.inflight ++ [(u, x)]) + countKeys v s.resQueue ≤ 1
    rw [countKeys_append, countKeys_singleton_pair]
    omega

theorem inv_workDone {Req Res : Type} {f : Req → Res} {s : Sys Req Res}
    {w1 w2 : List (Uuid × Req)} {u : Uuid} {x : Req}
    (hs : Inv f s) (hw : s.inflight = w1 ++ (u, x) :: w2) :
    Inv f { s with inflight := w1 ++ w2
                   resQueue := s.resQueue ++ [(u, f x)] } := by
  have hux : (u, x) ∈ s.pending ++ s.reqQueue ++ s.inflight := by
    rw [hw]
    simp
  refine { rmapNodup := hs.rmapNodup, regUsed := hs.regUsed, rmapUsed := hs.rmapUsed,
           unusedNone := hs.unusedNone, unusedDeliv := hs.unusedDeliv,
           regReq := hs.regReq, occDeliv := hs.occDeliv,
           chanVals := hs.chanVals, pipeMapped := ?_, resMapped := ?_, pipeOnce := ?_ }
  · intro p hpm
    apply hs.pipeMapped
    rw [hw]
    simp only [List.mem_append, List.mem_cons, List.mem_singleton] at hpm ⊢
    tauto
  · intro p hpm
    rcases List.mem_append.1 hpm with h | h
    · exact hs.resMapped p h
    · simp only [List.mem_singleton] at h
      subst h
      obtain ⟨kp, hlk, hpc⟩ := hs.pipeMapped (u, x) hux
      refine ⟨kp, hlk, ?_⟩
      show f x = f (s.callReq kp)
      rw [show x = s.callReq kp from hpc]
  · intro v
    have h1 := hs.pipeOnce v
    simp only [uuidCount, hw] at h1
    rw [countKeys_append, countKeys_cons_pair] at h1
    show countKeys v s.pending + countKeys v s.reqQueue +
      countKeys v (w1 ++ w2) + countKeys v (s.resQueue ++ [(u, f x)]) ≤ 1
    rw [countKeys_append, countKeys_append, countKeys_singleton_pair]
    omega

theorem inv_deliver {Req Res : Type} {f : Req → Res} {s : Sys Req Res}
    {u : Uuid} {r : Res} {rest : List (Uuid × Res)}
    (hs : Inv f s) (hq : s.resQueue = (u, r) :: rest) :
    Inv f (applyResponse u r { s with resQueue := rest }) := by
  obtain ⟨k0, hlk0, hrf0⟩ := hs.resMapped (u, r) (by rw [hq]; exact List.mem_cons_self _ _)
  have hlk : List.lookup u s.rmap = some k0 := hlk0
  have hrf : r = f (s.callReq k0) := hrf0
  have hk0used : k0 ∈ s.usedChans := hs.rmapUsed _ (lookup_some_mem hlk)
  have htot := hs.pipeOnce u
  simp only [uuidCount] at htot
  have hrc : countKeys u s.resQueue = countKeys u rest + 1 := by
    rw [hq, countKeys_cons_pair]
    simp
  have hpend0 : countKeys u s.pending = 0 := by omega
  have hreq0 : countKeys u s.reqQueue = 0 := by omega
  have hinf0 : countKeys u s.inflight = 0 := by omega
  have hrest0 : countKeys u rest = 0 := by omega
  have hifne : ∀ {α : Type} (l : List (Uuid × α)), countKeys u l = 0 →
      ∀ p ∈ l, p.1 ≠ u := by
    intro α l hl p hp he
    have := countKeys_pos_of_mem hp he
    omega
  have hndE : ((eraseKey u s.rmap).map Prod.fst).Nodup :=
    List.Nodup.sublist (eraseKey_map_fst_sublist u s.rmap) hs.rmapNodup
  rcases hchan : s.chans k0 with _ | buf
  · simp only [applyResponse, hlk, hchan]
    refine { regUsed := hs.regUsed, unusedNone := hs.unusedNone,
             unusedDeliv := hs.unusedDeliv, regReq := hs.regReq,
             chanVals := hs.chanVals,
             rmapNodup := hndE, rmapUsed := ?_, occDeliv := ?_,
             pipeMapped := ?_, resMapped := ?_, pipeOnce := ?_ }
    · intro p hp
      exact hs.rmapUsed p (mem_eraseKey hp)
    · intro j
      have h1 := hs.occDeliv j
      simp only [occ] at h1
      show countVals j s.regQueue + countVals j (eraseKey u s.rmap) +
        s.delivCount j ≤ 1
      by_cases hj : j = k0
      · subst hj
        have he := countVals_eraseKey_self hs.rmapNodup hlk
        omega
      · rw [countVals_eraseKey_ne hs.rmapNodup hlk hj]
        exact h1
    · intro p hp
      obtain ⟨kp, hlkp, hpc⟩ := hs.pipeMapped p hp
      have hpu : p.1 ≠ u := by
        rcases List.mem_append.1 hp with h | h
        · rcases List.mem_append.1 h with h2 | h2
          · exact hifne _ hpend0 p h2
          · exact hifne _ hreq0 p h2
        · exact hifne _ hinf0 p h
      exact ⟨kp, by rw [lookup_eraseKey_ne hpu]; exact hlkp, hpc⟩
    · intro p hp
      obtain ⟨kp, hlkp, hpc⟩ := hs.resMapped p (by rw [hq]; exact List.mem_cons_of_mem _ hp)
      have hpu : p.1 ≠ u := hifne _ hrest0 p hp
      exact ⟨kp, by rw [lookup_eraseKey_ne hpu]; exact hlkp, hpc⟩
    · intro v
      have h1 := hs.pipeOnce v
      simp only [uuidCount] at h1
      have h2 : countKeys v s.resQueue = countKeys v rest + if u = v then 1 else 0 := by
        rw [hq, countKeys_cons_pair]
      show countKeys v s.pending + countKeys v s.reqQueue +
        countKeys v s.inflight + countKeys v rest ≤ 1
      omega
  · simp only [applyResponse, hlk, hchan]
    refine { regUsed := hs.regUsed, regReq := hs.regReq,
             rmapNodup := hndE, rmapUsed := ?_, unusedNone := ?_, unusedDeliv := ?_,
             occDeliv := ?_, pipeMapped := ?_, resMapped := ?_, pipeOnce := ?_,
             chanVals := ?_ }
    · intro p hp
      exact hs.rmapUsed p (mem_eraseKey hp)
    · intro j hj
      have hne : j ≠ k0 := fun he => hj (he ▸ hk0used)
      simp only [updFn, if_neg hne]
      exact hs.unusedNone j hj
    · intro j hj
      have hne : j ≠ k0 := fun he => hj (he ▸ hk0used)
      simp only [updFn, if_neg hne]
      exact hs.unusedDeliv j hj
    · intro j
      have h1 := hs.occDeliv j
      simp only [occ] at h1
      show countVals j s.regQueue + countVals j (eraseKey u s.rmap) +
        updFn s.delivCount k0 (s.delivCount k0 + 1) j ≤ 1
      by_cases hj : j = k0
      · subst hj
        have he := countVals_eraseKey_self hs.rmapNodup hlk
        simp only [updFn, if_pos]
        omega
      · rw [countVals_eraseKey_ne hs.rmapNodup hlk hj]
        simp only [updFn, if_neg hj]
        exact h1
    · intro p hp
      obtain ⟨kp, hlkp, hpc⟩ := hs.pipeMapped p hp
      have hpu : p.1 ≠ u := by
        rcases List.mem_append.1 hp with h | h
        · rcases List.mem_append.1 h with h2 | h2
          · exact hifne _ hpend0 p h2
          · exact hifne _ hreq0 p h2
        · exact hifne _ hinf0 p h
      exact ⟨kp, by rw [lookup_eraseKey_ne hpu]; exact hlkp, hpc⟩
    · intro p hp
      obtain ⟨kp, hlkp, hpc⟩ := hs.resMapped p (by rw [hq]; exact List.mem_cons_of_mem _ hp)
      have hpu : p.1 ≠ u := hifne _ hrest0 p hp
      exact ⟨kp, by rw [lookup_eraseKey_ne hpu]; exact hlkp, hpc⟩
    · intro v
      have h1 := hs.pipeOnce v
      simp only [uuidCount] at h1
      have h2 : countKeys v s.resQueue = countKeys v rest + if u = v then 1 else 0 := by
        rw [hq, countKeys_cons_pair]
      show countKeys v s.pending + countKeys v s.reqQueue +
        countKeys v s.inflight + countKeys v rest ≤ 1
      omega
    · intro j buf2 hbuf r2 hr2
      by_cases hj : j = k0
      · subst hj
        simp only [updFn, if_pos] at hbuf
        cases hbuf
        rcases List.mem_append.1 hr2 with h | h
        · exact hs.chanVals j buf hchan r2 h
        · simp only [List.mem_singleton] at h
          subst h
          exact hrf
      · simp only [updFn, if_neg hj] at hbuf
        exact hs.chanVals j buf2 hbuf r2 hr2

theorem inv_close {Req Res : Type} {f : Req → Res} {s : Sys Req Res}
    (hs : Inv f s) (k : ChanId) :
    Inv f { s with chans := updFn s.chans k none } := by
  refine { rmapNodup := hs.rmapNodup, regUsed := hs.regUsed, rmapUsed := hs.rmapUsed,
           unusedDeliv := hs.unusedDeliv, regReq := hs.regReq, occDeliv := hs.occDeliv,
           pipeMapped := hs.pipeMapped, resMapped := hs.resMapped,
           pipeOnce := hs.pipeOnce, unusedNone := ?_, chanVals := ?_ }
  · intro j hj
    by_cases hjk : j = k
    · simp only [updFn, if_pos hjk]
    · simp only [updFn, if_neg hjk]
      exact hs.unusedNone j hj
  · intro j buf hbuf r hr
    by_cases hjk : j = k
    · simp only [updFn, if_pos hjk] at hbuf
      cases hbuf
    · simp only [updFn, if_neg hjk] at hbuf
      exact hs.chanVals j buf hbuf r hr

theorem inv_step {Req Res : Type} {f : Req → Res} {cap : Option Nat}
    {s t : Sys Req Res} (hs : Inv f s) (h : Step f cap s t) : Inv f t := by
  cases h with
  | submit x k hk => exact inv_submit hs hk
  | register x k rest u hq hu => exact inv_register hs hq hu
  | dispatch p1 p2 u x hp hroom => exact inv_dispatch hs hp
  | workTake u x rest hq => exact inv_workTake hs hq
  | workDone w1 w2 u x hw => exact inv_workDone hs hw
  | deliver u r rest hq => exact inv_deliver hs hq
  | closeChan k => exact inv_close hs k

theorem inv_init {Req Res : Type} [Inhabited Req] (f : Req → Res) :
    Inv f (initSys Req Res) := by
  refine { rmapNodup := by simp [initSys], regUsed := by simp [initSys],
           rmapUsed := by simp [initSys],
           unusedNone := fun k _ => rfl, unusedDeliv := fun k _ => rfl,
           regReq := by simp [initSys],
           occDeliv := by intro k; simp [initSys, occ, countVals],
           pipeMapped := by simp [initSys],
           resMapped := by simp [initSys],
           pipeOnce := by intro u; simp [initSys, uuidCount, countKeys],
           chanVals := by intro k buf h; simp [initSys] at h }

theorem inv_reachable {Req Res : Type} [Inhabited Req] {f : Req → Res}
    {cap : Option Nat} {s : Sys Req Res} (h : Reachable f cap s) : Inv f s := by
  induction h with
  | refl => exact inv_init f
  | tail hab hbc ih => exact inv_step ih hbc

theorem mintUuid_not_mem {gen : Nat → Uuid} {keys : List Uuid} :
    ∀ start fuel u, mintUuid gen keys start fuel = some u → u ∉ keys := by
  intro start fuel
  induction fuel generalizing start with
  | zero => intro u h; simp [mintUuid] at h
  | succ n ih =>
      intro u h
      rw [mintUuid] at h
      by_cases hmem : gen start ∈ keys
      · rw [if_pos hmem] at h
        exact ih (start + 1) u h
      · rw [if_neg hmem] at h
        cases h
        exact hmem

theorem mintUuid_retry {gen : Nat → Uuid} {keys : List Uuid} {start fuel : Nat}
    (h : gen start ∈ keys) :
    mintUuid gen keys start (fuel + 1) = mintUuid gen keys (start + 1) fuel := by
  rw [mintUuid, if_pos h]

theorem reach_w6 : Reachable Nat.succ (some 1) w6 := by
  have h0 : Reachable Nat.succ (some 1) w0 := Relation.ReflTransGen.refl
  have h1 : Reachable Nat.succ (some 1) w1 :=
    Relation.ReflTransGen.tail h0 (Step.submit w0 7 0 (by decide))
  have h2 : Reachable Nat.succ (some 1) w2 :=
    Relation.ReflTransGen.tail h1 (Step.register w1 7 0 [] 3 (by decide) (by decide))
  have h3 : Reachable Nat.succ (some 1) w3 :=
    Relation.ReflTransGen.tail h2
      (Step.dispatch w2 [] [] 3 7 (by decide) (by show (0 : Nat) < 1; decide))
  have h4 : Reachable Nat.succ (some 1) w4 :=
    Relation.ReflTransGen.tail h3 (Step.workTake w3 3 7 [] (by decide))
  have h5 : Reachable Nat.succ (some 1) w5 :=
    Relation.ReflTransGen.tail h4 (Step.workDone w4 [] [] 3 7 (by decide))
  exact Relation.ReflTransGen.tail h5 (Step.deliver w5 3 (Nat.succ 7) [] (by decide))

/-! ## Claims -/

/-- Claim C1: with every worker computing `response = f(request)`, every
`Endpoint::handle_request(x)` that completes with `Ok` returns exactly
`f(x)`, for any number of concurrently in-flight requests: in every
reachable state, every response delivered into the private reply channel of
a call equals `f` applied to the request submitted with that channel (no
payload corruption, no cross-wiring), and an `Ok` outcome of
`handle_request` is precisely a value received from that channel. -/
theorem claim1_round_trip {Req Res : Type} [Inhabited Req] (f : Req → Res)
    (cap : Option Nat) :
    (∀ s : Sys Req Res, Reachable f cap s →
      ∀ k buf r, s.chans k = some buf → r ∈ buf → r = f (s.callReq k)) ∧
    (∀ (R : Type) (sendOk : Bool) (tio : Option Nat) (recv : RecvOutcome R) (r : R),
      handle_request sendOk tio recv = some (Except.ok r) →
      ∃ t, recv = RecvOutcome.value t r) := by
  constructor
  · intro s h k buf r hbuf hr
    exact (inv_reachable h).chanVals k buf hbuf r hr
  · intro R sendOk tio recv r h
    cases sendOk with
    | false => simp [handle_request] at h
    | true =>
      cases tio with
      | some T =>
        cases recv with
        | value t r2 =>
            by_cases ht : t < T
            · simp [handle_request, ht] at h
              exact ⟨t, by rw [h]⟩
            · simp [handle_request, ht] at h
        | closed t => by_cases ht : t < T <;> simp [handle_request, ht] at h
        | never => simp [handle_request] at h
      | none =>
        cases recv with
        | value t r2 =>
            simp [handle_request] at h
            exact ⟨t, by rw [h]⟩
        | closed t => simp [handle_request] at h
        | never => simp [handle_request] at h

theorem claim1_round_trip_witness :
    (Nat.succ 7 = Nat.succ (w6.callReq 0)) ∧
    (∃ t, RecvOutcome.value 0 (5 : Nat) = RecvOutcome.value t 5) := by
  constructor
  · exact (claim1_round_trip Nat.succ (some 1)).1 w6 reach_w6 0 [Nat.succ 7]
      (Nat.succ 7) (by decide) (by decide)
  · exact (claim1_round_trip Nat.succ (some 1)).2 Nat true none
      (RecvOutcome.value 0 5) 5 rfl

/-- Claim C2: for every identifier, the Pending Call entry is removed from
the correlation map at most once (removal is the single atomic
`remove_async` of a response-loop pass), so at most one response is ever
delivered into a given reply channel, and a response whose identifier has
no map entry is a no-op, never delivered. -/
theorem claim2_at_most_once {Req Res : Type} [Inhabited Req] (f : Req → Res)
    (cap : Option Nat) :
    ∀ s : Sys Req Res, Reachable f cap s →
      (∀ k, s.delivCount k ≤ 1) ∧
      (∀ u r, List.lookup u s.rmap = none → applyResponse u r s = s) := by
  intro s h
  constructor
  · intro k
    have h1 := (inv_reachable h).occDeliv k
    omega
  · intro u r hu
    simp [applyResponse, hu]

theorem claim2_at_most_once_witness :
    (w6.delivCount 0 ≤ 1) ∧ (applyResponse 9 5 w6 = w6) := by
  have h := claim2_at_most_once Nat.succ (some 1) w6 reach_w6
  exact ⟨h.1 0, h.2 9 5 (by decide)⟩

/-- Claim C3: the registration loop generates a candidate identifier and,
whenever insertion fails because the key exists, regenerates and retries
(`mintUuid` recursion equation); a successfully minted identifier is not a
current key of the map, so its insertion succeeds; consequently the map keys
are pairwise distinct in every reachable state — no two Pending Call entries
share an identifier. -/
theorem claim3_unique_ids {Req Res : Type} [Inhabited Req] (f : Req → Res)
    (cap : Option Nat) :
    (∀ (gen : Nat → Uuid) (keys : List Uuid) (start fuel : Nat),
      gen start ∈ keys →
      mintUuid gen keys start (fuel + 1) = mintUuid gen keys (start + 1) fuel) ∧
    (∀ (gen : Nat → Uuid) (keys : List Uuid) (start fuel : Nat) (u : Uuid),
      mintUuid gen keys start fuel = some u → u ∉ keys) ∧
    (∀ s : Sys Req Res, Reachable f cap s → (s.rmap.map Prod.fst).Nodup) := by
  refine ⟨?_, ?_, ?_⟩
  · intro gen keys start fuel h
    exact mintUuid_retry h
  · intro gen keys start fuel u h
    exact mintUuid_not_mem start fuel u h
  · intro s h
    exact (inv_reachable h).rmapNodup

theorem claim3_unique_ids_witness :
    (mintUuid id [0] 0 (1 + 1) = mintUuid id [0] (0 + 1) 1) ∧
    ((1 : Uuid) ∉ [(0 : Uuid)]) ∧ ((w6.rmap.map Prod.fst).Nodup) := by
  have h := claim3_unique_ids Nat.succ (some 1)
  exact ⟨h.1 id [0] 0 1 (by decide), h.2.1 id [0] 0 2 1 (by decide),
    h.2.2 w6 reach_w6⟩

/-- Claim C4 counterexample: with timeout interval 5 configured and the
reply channel closing without a value at time 2, no response arrives within
the interval, yet `handle_request` returns `ResponseReceiveError`, not the
`TimeoutError` the claim predicts. -/
theorem claim4_counterexample :
    @handle_request Nat true (some 5) (RecvOutcome.closed 2) =
      some (Except.error EndpointError.ResponseReceiveError) ∧
    @handle_request Nat true (some 5) (RecvOutcome.closed 2) ≠
      some (Except.error EndpointError.TimeoutError) := by
  refine ⟨rfl, ?_⟩
  intro h
  simp [handle_request] at h

/-- Claim C4 amended: with a configured timeout interval `T`,
`handle_request` races the reply-channel receive against a timer of length
`T`: a value arriving strictly before `T` gives `Ok` with that value; if
the receive neither yields a value nor closes before `T`, the timer fires
and gives `TimeoutError`; a closure strictly before `T` gives
`ResponseReceiveError` instead. On timer expiry the reply channel is simply
dropped: the `closeChan` step is always enabled and changes no router state
other than the channel itself — no cancellation message is sent upstream. -/
theorem claim4_timeout_amended {Req Res R : Type} [Inhabited Req] (f : Req → Res)
    (cap : Option Nat) :
    (∀ (T t : Nat) (r : R), t < T →
      handle_request true (some T) (RecvOutcome.value t r) = some (Except.ok r)) ∧
    (∀ (T : Nat) (recv : RecvOutcome R), noResolveWithin T recv →
      handle_request true (some T) recv =
        some (Except.error EndpointError.TimeoutError)) ∧
    (∀ (T t : Nat), t < T →
      @handle_request R true (some T) (RecvOutcome.closed t) =
        some (Except.error EndpointError.ResponseReceiveError)) ∧
    (∀ (s : Sys Req Res) (k : ChanId),
      Step f cap s { s with chans := updFn s.chans k none } ∧
      ({ s with chans := updFn s.chans k none } : Sys Req Res).regQueue = s.regQueue ∧
      ({ s with chans := updFn s.chans k none } : Sys Req Res).rmap = s.rmap ∧
      ({ s with chans := updFn s.chans k none } : Sys Req Res).reqQueue = s.reqQueue ∧
      ({ s with chans := updFn s.chans k none } : Sys Req Res).resQueue = s.resQueue ∧
      ({ s with chans := updFn s.chans k none } : Sys Req Res).pending = s.pending) := by
  refine ⟨?_, ?_, ?_, ?_⟩
  · intro T t r ht
    simp [handle_request, ht]
  · intro T recv h
    cases recv with
    | value t r =>
        simp only [noResolveWithin] at h
        simp [handle_request, Nat.not_lt.2 h]
    | closed t =>
        simp only [noResolveWithin] at h
        simp [handle_request, Nat.not_lt.2 h]
    | never => simp [handle_request]
  · intro T t ht
    simp [handle_request, ht]
  · intro s k
    exact ⟨Step.closeChan s k, rfl, rfl, rfl, rfl, rfl⟩

theorem claim4_timeout_witness :
    (handle_request true (some 5) (RecvOutcome.value 2 (9 : Nat)) =
      some (Except.ok 9)) ∧
    (@handle_request Nat true (some 5) RecvOutcome.never =
      some (Except.error EndpointError.TimeoutError)) ∧
    (@handle_request Nat true (some 5) (RecvOutcome.closed 2) =
      some (Except.error EndpointError.ResponseReceiveError)) ∧
    (Step Nat.succ (some 1) w6 { w6 with chans := updFn w6.chans 0 none }) := by
  have h := @claim4_timeout_amended Nat Nat Nat _ Nat.succ (some 1)
  exact ⟨h.1 5 2 9 (by decide), h.2.1 5 RecvOutcome.never trivial,
    h.2.2.1 5 2 (by decide), (h.2.2.2 w6 0).1⟩

/-- Claim C5: if the registration send fails (the Registration Queue is
permanently closed), `handle_request` returns `RequestSendError`
immediately — for every timeout configuration and independently of whatever
the reply channel would have done, so the wait phase is never entered. -/
theorem claim5_submission_failure {R : Type} (tio : Option Nat)
    (recv : RecvOutcome R) :
    handle_request false tio recv =
      some (Except.error EndpointError.RequestSendError) := by
  simp [handle_request]

/-- Claim C6 counterexample: a timeout of 7 is configured, the reply channel
closes without a value at time 3, and `handle_request` returns
`ResponseReceiveError` even though a timeout was configured — contradicting
the claim that this error occurs only when no timeout is configured. -/
theorem claim6_counterexample :
    (some 7 ≠ (none : Option Nat)) ∧
    @handle_request Nat true (some 7) (RecvOutcome.closed 3) =
      some (Except.error EndpointError.ResponseReceiveError) := by
  exact ⟨by simp, rfl⟩

/-- Claim C6 amended: `handle_request` returns `ResponseReceiveError`
exactly when the registration send succeeded and the reply channel closed
without delivering a value before any configured timeout expired — with no
timeout configured, whenever it closes; with a timeout `T` configured, when
it closes strictly before `T`. -/
theorem claim6_receive_failed_amended {R : Type} (sendOk : Bool)
    (tio : Option Nat) (recv : RecvOutcome R) :
    handle_request sendOk tio recv =
      some (Except.error EndpointError.ResponseReceiveError) ↔
    (sendOk = true ∧
      ((tio = none ∧ ∃ t, recv = RecvOutcome.closed t) ∨
       (∃ T t, tio = some T ∧ recv = RecvOutcome.closed t ∧ t < T))) := by
  cases sendOk with
  | false => simp [handle_request]
  | true =>
    cases tio with
    | none =>
      cases recv with
      | value t r => simp [handle_request]
      | closed t => simp [handle_request]
      | never => simp [handle_request]
    | some T =>
      cases recv with
      | value t r => by_cases ht : t < T <;> simp [handle_request, ht]
      | closed t => by_cases ht : t < T <;> simp [handle_request, ht]
      | never => simp [handle_request]

/-- Claim C7 counterexample: the per-call reply channel is created with
`bounded(100)`, and accepts a second value while already holding one — it is
not a handoff cell capable of holding at most one value. -/
theorem claim7_counterexample :
    replyChannelCapacity = 100 ∧
    chanSend replyChannelCapacity [(0 : Nat)] 1 = some [0, 1] := by
  exact ⟨rfl, rfl⟩

/-- Claim C7 amended: each `handle_request` call creates a fresh private
reply channel used by no other call — in every reachable state the reply
channels of all pending calls (in the Registration Queue and in the
correlation map) are pairwise distinct; the channel has the fixed capacity
100, which is at least 1, so the response-loop send into it never blocks
(the router delivers at most one value into each reply channel, and the
first send into an empty channel always completes); the channel can,
however, buffer up to 100 values, not at most one. -/
theorem claim7_fresh_channel_amended {Req Res : Type} [Inhabited Req]
    (f : Req → Res) (cap : Option Nat) :
    1 ≤ replyChannelCapacity ∧
    (∀ (R : Type) (v : R), chanSend replyChannelCapacity [] v = some [v]) ∧
    (∀ s : Sys Req Res, Reachable f cap s →
      (s.regQueue.map Prod.snd ++ s.rmap.map Prod.snd).Nodup ∧
      ∀ k, s.delivCount k ≤ 1) := by
  refine ⟨by simp [replyChannelCapacity], ?_, ?_⟩
  · intro R v
    simp [chanSend, replyChannelCapacity]
  · intro s h
    have hinv := inv_reachable h
    constructor
    · rw [List.nodup_iff_count_le_one]
      intro k
      have h1 := hinv.occDeliv k
      simp only [occ, countVals] at h1
      rw [List.count_append]
      omega
    · intro k
      have h1 := hinv.occDeliv k
      omega

theorem claim7_fresh_channel_witness :
    (1 ≤ replyChannelCapacity) ∧
    (chanSend replyChannelCapacity [] (3 : Nat) = some [3]) ∧
    ((w6.regQueue.map Prod.snd ++ w6.rmap.map Prod.snd).Nodup ∧
      ∀ k, w6.delivCount k ≤ 1) := by
  have h := claim7_fresh_channel_amended Nat.succ (some 1)
  exact ⟨h.1, h.2.1 Nat 3, h.2.2 w6 reach_w6⟩

/-- Claim C8: all internal response-loop errors are contained. A received
identifier with no map entry leaves the state entirely unchanged (a
non-fatal no-op); a send failure because the caller is gone is swallowed —
the entry is still removed and nothing else changes; after either event the
loop continues with the remaining events; and the loop ends exactly when
its event list (the queue contents before closure) is exhausted. Every
branch of `applyResponse` is a total function of the state: no event makes
the router panic or abort. -/
theorem claim8_error_containment {Req Res : Type} :
    (∀ (s : Sys Req Res) (u : Uuid) (r : Res),
      List.lookup u s.rmap = none → applyResponse u r s = s) ∧
    (∀ (s : Sys Req Res) (u : Uuid) (r : Res) (k : ChanId),
      List.lookup u s.rmap = some k → s.chans k = none →
      applyResponse u r s = { s with rmap := eraseKey u s.rmap }) ∧
    (∀ (s : Sys Req Res) (e : Uuid × Res) (es : List (Uuid × Res)),
      responseLoop (e :: es) s = responseLoop es (applyResponse e.1 e.2 s)) ∧
    (∀ s : Sys Req Res, responseLoop ([] : List (Uuid × Res)) s = s) := by
  refine ⟨?_, ?_, ?_, ?_⟩
  · intro s u r hu
    simp [applyResponse, hu]
  · intro s u r k hu hc
    simp [applyResponse, hu, hc]
  · intro s e es
    rfl
  · intro s
    rfl

theorem claim8_error_containment_witness :
    (applyResponse 9 0 w7 = w7) ∧
    (applyResponse 4 0 w7 = { w7 with rmap := eraseKey 4 w7.rmap }) ∧
    (responseLoop [(1, 2)] w7 = responseLoop [] (applyResponse 1 2 w7)) ∧
    (responseLoop ([] : List (Uuid × Nat)) w7 = w7) := by
  have h := @claim8_error_containment Nat Nat
  exact ⟨h.1 w7 9 0 (by decide), h.2.1 w7 4 0 5 (by decide) (by decide),
    h.2.2.1 w7 (1, 2) [], h.2.2.2 w7⟩

/-- Claim C9: the registration loop dispatches `(identifier, request)` in a
detached task, so a full Request Queue never blocks the loop: from any
state whose Registration Queue is nonempty and whose Request Queue is full
(no room under its capacity), a registration step is still enabled — it
consumes the head registration, inserts the map entry and queues a new
dispatch task while leaving the Request Queue untouched, even with earlier
dispatch tasks still outstanding. -/
theorem claim9_detached_dispatch {Req Res : Type} (f : Req → Res) (n : Nat)
    (s : Sys Req Res) (x : Req) (k : ChanId) (rest : List (Req × ChanId))
    (u : Uuid) (hq : s.regQueue = (x, k) :: rest)
    (hu : List.lookup u s.rmap = none)
    (_hfull : ¬ hasRoom (some n) s.reqQueue) :
    ∃ t, Step f (some n) s t ∧ t.regQueue = rest ∧ t.reqQueue = s.reqQueue ∧
      t.pending = s.pending ++ [(u, x)] ∧ t.rmap = (u, k) :: s.rmap := by
  exact ⟨_, Step.register s x k rest u hq hu, rfl, rfl, rfl, rfl⟩

theorem claim9_detached_dispatch_witness :
    ∃ t : Sys Nat Nat, Step Nat.succ (some 1) wC9 t ∧ t.regQueue = [] ∧
      t.reqQueue = wC9.reqQueue ∧ t.pending = wC9.pending ++ [(3, 7)] ∧
      t.rmap = [(3, 0)] := by
  exact claim9_detached_dispatch Nat.succ 1 wC9 7 0 [] 3 (by decide) (by decide)
    (by show ¬ (1 < 1); decide)

/-- Claim C10: every `Router` clone holds, as struct fields, a sender end
(and a receiver end) of all three queues, so while at least one clone is
alive none of the queues can close: the registration loop, the response
loop and `run()` cannot terminate. Conversely, if `run()` has returned,
the number of live `Router` clones is zero — termination requires every
clone (not merely every `Endpoint`) to have been dropped. -/
theorem claim10_router_lifetime :
    ∀ o : Own,
      (1 ≤ o.clones →
        ¬ regLoopTerminated o ∧ ¬ respLoopTerminated o ∧
        ¬ senderClosed (reqSenders o) ∧ ¬ runReturned o) ∧
      (runReturned o → o.clones = 0) := by
  intro o
  constructor
  · intro h
    refine ⟨?_, ?_, ?_, ?_⟩
    · simp only [regLoopTerminated, senderClosed, regSenders]
      omega
    · simp only [respLoopTerminated, senderClosed, respSenders]
      omega
    · simp only [senderClosed, reqSenders]
      omega
    · intro hr
      have h1 := hr.1
      simp only [regLoopTerminated, senderClosed, regSenders] at h1
      omega
  · intro h
    have h1 := h.1
    simp only [regLoopTerminated, senderClosed, regSenders] at h1
    omega

theorem claim10_router_lifetime_witness :
    (¬ regLoopTerminated ⟨1, 0, 0⟩ ∧ ¬ respLoopTerminated ⟨1, 0, 0⟩ ∧
      ¬ senderClosed (reqSenders ⟨1, 0, 0⟩) ∧ ¬ runReturned ⟨1, 0, 0⟩) ∧
    (Own.clones ⟨0, 0, 0⟩ = 0) := by
  constructor
  · exact (claim10_router_lifetime ⟨1, 0, 0⟩).1 (by decide)
  · exact (claim10_router_lifetime ⟨0, 0, 0⟩).2 ⟨rfl, rfl⟩

end S2A4C
